import Mathlib

/-!
Verification development for the tool-augmented analysis core of the
be-my-reply-guy repository: the tool registry (`src/utils/tools_manager.py`)
and the tool-calling conversation loop
(`src/agents/tweet_analyzer_with_tools_agent.py`, method `process`).

The Python code is shallowly embedded: the registry's dict becomes an
association list with Python-dict semantics (insertion order preserved,
overwrite keeps the original position), exceptions become an explicit
`Except` flow where `except ValueError` / `except Exception` handlers are
modelled by testing the exception value, and the unbounded `while True`
loop becomes a fuel-indexed step function whose out-of-fuel outcome means
"the Python loop is still running".
-/

namespace ReplyGuy

/-- Python exception values relevant to this core.  `json.JSONDecodeError`
is a subclass of `ValueError` in Python, so both are caught by an
`except ValueError` handler; `KeyError` and other exceptions are not. -/
inductive PyExc where
  | valueError (msg : String)
  | jsonDecodeError (msg : String)
  | keyError (key : String)
  | otherError (msg : String)
deriving DecidableEq, Repr

/-- Whether an `except ValueError` handler catches this exception
(true exactly for `ValueError` and its subclass `json.JSONDecodeError`). -/
def PyExc.isValueError : PyExc → Bool
  | .valueError _ => true
  | .jsonDecodeError _ => true
  | .keyError _ => false
  | .otherError _ => false

/-- Python values passed around as parsed JSON: strings, dicts and lists
cover every payload and parameter schema occurring in the repository. -/
inductive PyVal where
  | str : String → PyVal
  | dict : List (String × PyVal) → PyVal
  | list : List PyVal → PyVal

/-- Read the character content of one JSON string literal: consume up to
the closing quote, returning the content and the rest of the input. -/
def takeStringChars : List Char → Option (List Char × List Char)
  | [] => none
  | c :: cs =>
    if c = '"' then some ([], cs)
    else
      match takeStringChars cs with
      | some (s, rest) => some (c :: s, rest)
      | none => none

/-- Read one `"key":"value"` member of a JSON object. -/
def takeMember (cs : List Char) : Option ((String × PyVal) × List Char) :=
  match cs with
  | '"' :: cs1 =>
    match takeStringChars cs1 with
    | some (k, ':' :: '"' :: cs2) =>
      match takeStringChars cs2 with
      | some (v, cs3) => some ((String.mk k, PyVal.str (String.mk v)), cs3)
      | none => none
    | _ => none
  | _ => none

/-- Read the comma-separated members of a JSON object up to the closing
brace, with fuel bounding the number of members. -/
def takeMembers : Nat → List Char → Option (List (String × PyVal))
  | 0, _ => none
  | fuel + 1, cs =>
    match takeMember cs with
    | some (kv, '\x7d' :: []) => some [kv]
    | some (kv, ',' :: rest) =>
      match takeMembers fuel rest with
      | some kvs => some (kv :: kvs)
      | none => none
    | _ => none

/-- Model of the Python standard-library call `json.loads` (external to the
repository), restricted to the flat string-valued JSON objects that this
repository's tool calls exchange.  `none` models a raised
`json.JSONDecodeError` — in Python a subclass of `ValueError`. -/
def jsonLoads (s : String) : Option PyVal :=
  match s.data with
  | ['\x7b', '\x7d'] => some (PyVal.dict [])
  | '\x7b' :: rest =>
    match takeMembers s.length rest with
    | some kvs => some (PyVal.dict kvs)
    | none => none
  | _ => none

/-- A tool descriptor, from the `Tool` dataclass of
`src/utils/tools_manager.py`: name, description, declarative parameter
schema and the implementation function.  The implementation may raise any
Python exception, modelled by `Except PyExc`. -/
structure Tool where
  name : String
  description : String
  parameters : PyVal
  implementation : PyVal → Except PyExc String

/-- Python-dict association list: the pairs of a `Dict[str, Tool]` in
insertion order. -/
abbrev PyDict := List (String × Tool)

/-- Python `d[k]` read access (as an `Option`): the value stored under the
first — and for a dict, only — pair whose key is `k`. -/
def dictLookup (d : PyDict) (k : String) : Option Tool :=
  (d.find? (fun p => p.1 = k)).map (fun p => p.2)

/-- Python `d[k] = v` on a dict: if the key is present its value is
replaced in place (the key keeps its original insertion position),
otherwise the pair is appended at the end — CPython dicts preserve
insertion order. -/
def dictInsert (d : PyDict) (k : String) (v : Tool) : PyDict :=
  if d.any (fun p => p.1 = k) then
    d.map (fun p => if p.1 = k then (k, v) else p)
  else
    d ++ [(k, v)]

/-- The `ToolsManager` of `src/utils/tools_manager.py`: its only state is
`self.tools: Dict[str, Tool]`. -/
structure ToolsManager where
  tools : PyDict

/-- `ToolsManager.__init__`: starts with an empty dict. -/
def ToolsManager.empty : ToolsManager := ⟨[]⟩

/-- `ToolsManager.register_tool`: `self.tools[tool.name] = tool`. -/
def register_tool (m : ToolsManager) (tool : Tool) : ToolsManager :=
  ⟨dictInsert m.tools tool.name tool⟩

/-- One OpenAI-compatible tool definition as built by
`ToolsManager.get_tool_definitions`: the literal `"function"` type tag and
the function block holding name, description and parameter schema. -/
structure ToolDefinition where
  type : String
  name : String
  description : String
  parameters : PyVal

/-- `ToolsManager.get_tool_definitions`: one formatted entry per stored
tool, iterating `self.tools.values()` in dict (insertion) order. -/
def get_tool_definitions (m : ToolsManager) : List ToolDefinition :=
  m.tools.map (fun p => ⟨"function", p.2.name, p.2.description, p.2.parameters⟩)

/-- `ToolsManager.execute_tool`: raise `ValueError(f"Unknown tool: {name}")`
when the name is not registered (the membership test comes first), then
parse the serialized arguments with `json.loads` (raising
`json.JSONDecodeError` on bad input), then call the stored implementation
on the parsed value, propagating whatever it raises. -/
def execute_tool (m : ToolsManager) (name : String) (arguments : String) :
    Except PyExc String :=
  match dictLookup m.tools name with
  | none => Except.error (PyExc.valueError ("Unknown tool: " ++ name))
  | some tool =>
    match jsonLoads arguments with
    | none => Except.error (PyExc.jsonDecodeError "Expecting value")
    | some parsed => tool.implementation parsed

/-- Registering a list of tools in order into a fresh manager, as
`register_all_tools` of `src/utils/tools_registry.py` does for the four
concrete tools. -/
def registerAll (ts : List Tool) : ToolsManager :=
  ts.foldl register_tool ToolsManager.empty

/-- One tool-call request inside an assistant turn, as delivered by the
completion service: `tool_call.id`, `tool_call.function.name` and the
serialized `tool_call.function.arguments`. -/
structure ToolCall where
  id : String
  name : String
  arguments : String

/-- An assistant message returned by the completion service
(`response.choices[0].message`): its text content (possibly null) and its
list of tool-call requests (`[]` models both an absent and an empty
`tool_calls` attribute — both falsy in the Python test). -/
structure AssistantMessage where
  content : Option String
  tool_calls : List ToolCall

/-- A message of the conversation list built by
`TweetAnalyzerWithToolsAgent.process`: the seeded system and user
messages, appended assistant turns, and appended tool-result dicts
(`role="tool"` with `tool_call_id`, `name`, `content`). -/
inductive Message where
  | system (content : String)
  | user (content : String)
  | assistant (m : AssistantMessage)
  | tool (tool_call_id : String) (name : String) (content : String)

/-- The correlation id carried by a tool-result message, if any. -/
def Message.toolCallId : Message → Option String
  | .tool tool_call_id _ _ => some tool_call_id
  | _ => none

/-- The external completion service
(`self.client.chat.completions.create`): given the current conversation it
either returns an assistant message or raises (`Except.error`).  The
`tools` advertisement and `tool_choice="auto"` are fixed for a whole run
and therefore absorbed into the oracle. -/
abbrev CompletionService := List Message → Except PyExc AssistantMessage

/-- The two messages `process` seeds the conversation with: the agent's
system prompt and the `"Analyze this tweet:\n\n{tweet_context}"` user
message. -/
def initMessages (systemPrompt tweet_context : String) : List Message :=
  [Message.system systemPrompt,
   Message.user ("Analyze this tweet:\n\n" ++ tweet_context)]

/-- The loop's state: the growing `messages` list, plus a ghost counter of
completion-service calls made so far (not a Python variable; it makes the
call count of a run available to the theorems). -/
structure LoopState where
  messages : List Message
  serviceCalls : Nat

/-- The inner `for tool_call in response_message.tool_calls` dispatch of
`process`: each call goes through `execute_tool`; on success a tool-result
message carrying that call's id and name is appended; a raised
`ValueError` is caught by the per-call `except ValueError` handler (logged
and skipped); any other exception propagates out of the `for` loop,
carrying the messages accumulated so far. -/
def dispatchCalls (m : ToolsManager) (msgs : List Message) :
    List ToolCall → Except (PyExc × List Message) (List Message)
  | [] => Except.ok msgs
  | tc :: rest =>
    match execute_tool m tc.name tc.arguments with
    | Except.ok result =>
      dispatchCalls m (msgs ++ [Message.tool tc.id tc.name result]) rest
    | Except.error e =>
      if e.isValueError then dispatchCalls m msgs rest
      else Except.error (e, msgs)

/-- Outcome of running the `try: while True: ...` body of `process` for a
bounded number of iterations: a normal `return response_message.content`,
an exception escaping the `while` loop (to be caught by the outer
`except Exception`), or fuel exhausted — the Python loop, which has no
iteration bound, would still be running. -/
inductive BodyResult where
  | ret (content : Option String) (final : LoopState)
  | exn (e : PyExc) (final : LoopState)
  | outOfFuel (final : LoopState)

/-- The `while True` body of `TweetAnalyzerWithToolsAgent.process`,
fuel-indexed: call the completion service (a raised exception escapes); if
the assistant turn has no tool calls, return its content; otherwise append
the assistant turn, dispatch every tool call in order, and iterate. -/
def loopBody (svc : CompletionService) (m : ToolsManager) :
    Nat → LoopState → BodyResult
  | 0, s => BodyResult.outOfFuel s
  | fuel + 1, s =>
    match svc s.messages with
    | Except.error e => BodyResult.exn e ⟨s.messages, s.serviceCalls + 1⟩
    | Except.ok rm =>
      if rm.tool_calls.isEmpty then
        BodyResult.ret rm.content ⟨s.messages, s.serviceCalls + 1⟩
      else
        match dispatchCalls m (s.messages ++ [Message.assistant rm]) rm.tool_calls with
        | Except.ok msgs2 => loopBody svc m fuel ⟨msgs2, s.serviceCalls + 1⟩
        | Except.error (e, msgs1) => BodyResult.exn e ⟨msgs1, s.serviceCalls + 1⟩

/-- `TweetAnalyzerWithToolsAgent.process`: run the loop body from the
seeded conversation; the outer `except Exception` handler converts every
escaped exception into the return value `None`.  The result is
`some r` when the Python call returns `r` (itself `Option String`, since
both the failure path and a null-content final turn return `None`), and
`none` when the given fuel is exhausted while the unbounded Python loop
would still be running. -/
def process (svc : CompletionService) (m : ToolsManager)
    (systemPrompt tweet_context : String) (fuel : Nat) :
    Option (Option String) :=
  match loopBody svc m fuel ⟨initMessages systemPrompt tweet_context, 0⟩ with
  | BodyResult.ret c _ => some c
  | BodyResult.exn _ _ => some none
  | BodyResult.outOfFuel _ => none

/-- Modelled from `src/utils/tools_registry.py`, `search_internet`: reads
`params["query"]` (a missing key raises `KeyError`, a non-dict subscript a
`TypeError`) and hands the query to the external `InternetSearchAgent`,
whose network-backed `process` is abstracted as the `agent` argument. -/
def search_internet (agent : String → Except PyExc String) :
    PyVal → Except PyExc String
  | PyVal.dict d =>
    match (d.find? (fun p => p.1 = "query")).map (fun p => p.2) with
    | some (PyVal.str q) => agent q
    | some _ => Except.error (PyExc.otherError "TypeError")
    | none => Except.error (PyExc.keyError "query")
  | _ => Except.error (PyExc.otherError "TypeError")

/-- The `search_internet` descriptor exactly as `register_all_tools` of
`src/utils/tools_registry.py` builds it, with the external search agent
instantiated to a deterministic stub returning `"result-" ++ query`. -/
def searchTool : Tool :=
  ⟨"search_internet", "Search the internet for information",
   PyVal.dict
     [("type", PyVal.str "object"),
      ("properties", PyVal.dict
        [("query", PyVal.dict
          [("type", PyVal.str "string"),
           ("description", PyVal.str "The search query")])]),
      ("required", PyVal.list [PyVal.str "query"])],
   search_internet (fun q => Except.ok ("result-" ++ q))⟩

/-- A registry holding exactly the `search_internet` tool. -/
def mgrSearch : ToolsManager := registerAll [searchTool]

/-- A completion service whose call always raises a transport error. -/
def svcFail : CompletionService :=
  fun _ => Except.error (PyExc.otherError "connection error")

/-- A completion service that immediately returns a final assistant turn
with no tool calls and null content. -/
def svcNull : CompletionService := fun _ => Except.ok ⟨none, []⟩

/-- An assistant turn requesting `search_internet` with the empty-object
argument payload, which is valid JSON but lacks the required `query`
field. -/
def rmBoom : AssistantMessage :=
  ⟨none, [⟨"call_1", "search_internet", "\x7b\x7d"⟩]⟩

/-- A completion service that first requests the `search_internet` call of
`rmBoom` and, on any later (longer) conversation, returns the final text
`"Final"`. -/
def svcBoom : CompletionService := fun msgs =>
  if msgs.length ≤ 2 then Except.ok rmBoom
  else Except.ok ⟨some "Final", []⟩

/-- An assistant turn that always requests one call of an unregistered
tool. -/
def alwaysToolResponse : AssistantMessage :=
  ⟨none, [⟨"call_1", "unknown_tool", "\x7b\x7d"⟩]⟩

/-- A completion service whose every response requests a tool call. -/
def alwaysToolSvc : CompletionService :=
  fun _ => Except.ok alwaysToolResponse

/-- The names registered first, in order of first registration: the key
sequence a Python dict holds after inserting each name in turn. -/
def firstOcc : List String → List String
  | [] => []
  | n :: ns => n :: (firstOcc ns).filter (fun x => x ≠ n)

/-- The tool-result messages a batch of tool calls contributes to the
conversation: one message per call whose execution succeeds, carrying that
call's id and name, in batch order. -/
def batchResults (m : ToolsManager) (batch : List ToolCall) : List Message :=
  batch.filterMap (fun tc =>
    match execute_tool m tc.name tc.arguments with
    | Except.ok r => some (Message.tool tc.id tc.name r)
    | Except.error _ => none)

/-- A batch of one well-formed `search_internet` call. -/
def batchOne : List ToolCall :=
  [⟨"call_9", "search_internet", "\x7b\"query\":\"x\"\x7d"⟩]

/-- A first descriptor registered under the name `dup`. -/
def toolDupA : Tool :=
  ⟨"dup", "first version", PyVal.dict [], fun _ => Except.ok "A"⟩

/-- A second, different descriptor registered under the same name `dup`. -/
def toolDupB : Tool :=
  ⟨"dup", "second version", PyVal.dict [], fun _ => Except.ok "B"⟩

/-! ### Properties of the Python-dict model -/

lemma dictLookup_cons (p : String × Tool) (d : PyDict) (k : String) :
    dictLookup (p :: d) k = if p.1 = k then some p.2 else dictLookup d k := by
  by_cases hp : p.1 = k <;> simp [dictLookup, List.find?_cons, hp]

lemma dictLookup_append (d₁ d₂ : PyDict) (k : String) :
    dictLookup (d₁ ++ d₂) k =
      match dictLookup d₁ k with
      | some v => some v
      | none => dictLookup d₂ k := by
  induction d₁ with
  | nil => simp [dictLookup]
  | cons p d' ih =>
    by_cases hp : p.1 = k
    · simp [dictLookup_cons, hp]
    · simp [dictLookup_cons, hp, ih]

lemma dictLookup_of_any_eq_false (d : PyDict) (k : String)
    (h : d.any (fun p => p.1 = k) = false) : dictLookup d k = none := by
  induction d with
  | nil => rfl
  | cons p d' ih =>
    simp only [List.any_cons, Bool.or_eq_false_iff, decide_eq_false_iff_not] at h
    simp [dictLookup_cons, h.1, ih h.2]

lemma dictLookup_map_update_self (d : PyDict) (k : String) (v : Tool)
    (h : d.any (fun p => p.1 = k) = true) :
    dictLookup (d.map (fun p => if p.1 = k then (k, v) else p)) k = some v := by
  induction d with
  | nil => cases h
  | cons p d' ih =>
    by_cases hp : p.1 = k
    · simp [List.map_cons, hp, dictLookup_cons]
    · have h' : d'.any (fun p => p.1 = k) = true := by
        simpa [List.any_cons, hp] using h
      simp [List.map_cons, hp, dictLookup_cons, ih h']

lemma dictLookup_map_update_ne (d : PyDict) (k k' : String) (v : Tool)
    (h : k' ≠ k) :
    dictLookup (d.map (fun p => if p.1 = k then (k, v) else p)) k' =
      dictLookup d k' := by
  induction d with
  | nil => rfl
  | cons p d' ih =>
    simp only [List.map_cons]
    by_cases hp : p.1 = k
    · rw [if_pos hp, dictLookup_cons, dictLookup_cons, ih]
      have h1 : ¬ ((k, v).1 = k') := by simpa using Ne.symm h
      have h2 : ¬ (p.1 = k') := by rw [hp]; simpa using Ne.symm h
      rw [if_neg h1, if_neg h2]
    · rw [if_neg hp, dictLookup_cons, dictLookup_cons, ih]

lemma dictLookup_dictInsert_self (d : PyDict) (k : String) (v : Tool) :
    dictLookup (dictInsert d k v) k = some v := by
  unfold dictInsert
  by_cases hany : d.any (fun p => p.1 = k)
  · simpa [hany] using dictLookup_map_update_self d k v hany
  · have hfalse : d.any (fun p => p.1 = k) = false := by
      cases hb : d.any (fun p => p.1 = k)
      · rfl
      · exact absurd hb hany
    rw [if_neg hany, dictLookup_append, dictLookup_of_any_eq_false d k hfalse]
    simp [dictLookup_cons]

lemma dictLookup_dictInsert_ne (d : PyDict) (k k' : String) (v : Tool)
    (h : k' ≠ k) : dictLookup (dictInsert d k v) k' = dictLookup d k' := by
  unfold dictInsert
  by_cases hany : d.any (fun p => p.1 = k)
  · simpa [hany] using dictLookup_map_update_ne d k k' v h
  · rw [if_neg hany, dictLookup_append]
    cases hl : dictLookup d k' with
    | some w => simp
    | none => simp [dictLookup_cons, Ne.symm h, dictLookup]

lemma dictInsert_keys (d : PyDict) (k : String) (v : Tool) :
    (dictInsert d k v).map Prod.fst =
      if k ∈ d.map Prod.fst then d.map Prod.fst else d.map Prod.fst ++ [k] := by
  have hmem : d.any (fun p => p.1 = k) = true ↔ k ∈ d.map Prod.fst := by
    simp only [List.any_eq_true, List.mem_map, decide_eq_true_eq]
  unfold dictInsert
  by_cases hany : d.any (fun p => p.1 = k)
  · rw [if_pos hany, if_pos (hmem.mp hany), List.map_map]
    apply List.map_congr_left
    intro p _
    by_cases hp : p.1 = k <;> simp [hp]
  · have hnot : ¬ k ∈ d.map Prod.fst := fun hc => hany (hmem.mpr hc)
    rw [if_neg hany, if_neg hnot, List.map_append]
    simp

lemma dictInsert_keys_nodup (d : PyDict) (k : String) (v : Tool)
    (h : (d.map Prod.fst).Nodup) :
    ((dictInsert d k v).map Prod.fst).Nodup := by
  rw [dictInsert_keys]
  by_cases hmem : k ∈ d.map Prod.fst
  · rwa [if_pos hmem]
  · rw [if_neg hmem]
    simp [List.nodup_append, h, hmem]

lemma dictInsert_mem (d : PyDict) (k : String) (v : Tool) (p : String × Tool)
    (hp : p ∈ dictInsert d k v) : p ∈ d ∨ p = (k, v) := by
  unfold dictInsert at hp
  by_cases hany : d.any (fun q => q.1 = k)
  · rw [if_pos hany, List.mem_map] at hp
    obtain ⟨q, hq, he⟩ := hp
    by_cases hqk : q.1 = k
    · right
      rw [← he]
      simp [hqk]
    · left
      rw [← he]
      simpa [hqk] using hq
  · rw [if_neg hany, List.mem_append] at hp
    rcases hp with hp | hp
    · exact Or.inl hp
    · exact Or.inr (by simpa using hp)

lemma dictInsert_filter_self (d : PyDict) (k : String) (v : Tool)
    (h : (d.map Prod.fst).Nodup) :
    (dictInsert d k v).filter (fun p => p.1 = k) = [(k, v)] := by
  unfold dictInsert
  by_cases hany : d.any (fun q => q.1 = k)
  · rw [if_pos hany]
    induction d with
    | nil => cases hany
    | cons p d' ih =>
      by_cases hp : p.1 = k
      · have hknot : k ∉ d'.map Prod.fst := by
          simp only [List.map_cons, List.nodup_cons] at h
          exact hp ▸ h.1
        have hmap : d'.map (fun q => if q.1 = k then (k, v) else q) = d' := by
          conv_rhs => rw [← List.map_id d']
          apply List.map_congr_left
          intro q hq
          have : ¬ (q.1 = k) := fun hc => hknot (hc ▸ List.mem_map_of_mem Prod.fst hq)
          simp [this]
        have hfil : d'.filter (fun q => q.1 = k) = [] := by
          rw [List.filter_eq_nil_iff]
          intro q hq
          simp only [decide_eq_true_eq]
          exact fun hc => hknot (hc ▸ List.mem_map_of_mem Prod.fst hq)
        simp [List.map_cons, hp, List.filter_cons, hmap, hfil]
      · have hany' : d'.any (fun q => q.1 = k) = true := by
          simpa [List.any_cons, hp] using hany
        have h' : (d'.map Prod.fst).Nodup := by
          simp only [List.map_cons, List.nodup_cons] at h
          exact h.2
        simp only [List.map_cons, if_neg hp, List.filter_cons, hp]
        rw [if_neg (by simpa using hp)]
        exact ih h' hany'
  · rw [if_neg hany, List.filter_append]
    have hfil : d.filter (fun q => q.1 = k) = [] := by
      rw [List.filter_eq_nil_iff]
      intro q hq
      simp only [decide_eq_true_eq]
      intro hc
      exact hany (List.any_eq_true.mpr ⟨q, hq, by simpa using hc⟩)
    simp [hfil, List.filter_cons]

lemma registerAll_append (ts : List Tool) (t : Tool) :
    registerAll (ts ++ [t]) = register_tool (registerAll ts) t := by
  simp [registerAll, List.foldl_append]

lemma mem_firstOcc (ns : List String) (x : String) :
    x ∈ firstOcc ns ↔ x ∈ ns := by
  induction ns with
  | nil => simp [firstOcc]
  | cons n ns ih =>
    by_cases hx : x = n
    · simp [firstOcc, hx]
    · simp [firstOcc, hx, List.mem_filter, ih]

lemma firstOcc_nodup (ns : List String) : (firstOcc ns).Nodup := by
  induction ns with
  | nil => simp [firstOcc]
  | cons n ns ih =>
    simp only [firstOcc, List.nodup_cons]
    constructor
    · simp [List.mem_filter]
    · exact ih.filter _

lemma firstOcc_append (ns : List String) (n : String) :
    firstOcc (ns ++ [n]) =
      if n ∈ ns then firstOcc ns else firstOcc ns ++ [n] := by
  induction ns with
  | nil => simp [firstOcc]
  | cons m ns ih =>
    simp only [List.cons_append, List.append_eq, firstOcc, ih]
    by_cases hmem : n ∈ ns
    · rw [if_pos hmem, if_pos (List.mem_cons.mpr (Or.inr hmem))]
    · by_cases hnm : n = m
      · subst hnm
        rw [if_neg hmem, if_pos (List.mem_cons.mpr (Or.inl rfl))]
        simp [List.filter_append, List.filter_cons]
      · have hnotin : ¬ n ∈ m :: ns := by simp [hnm, hmem]
        rw [if_neg hmem, if_neg hnotin]
        simp [List.filter_append, List.filter_cons, hnm]

lemma registerAll_keys (ts : List Tool) :
    ((registerAll ts).tools).map Prod.fst = firstOcc (ts.map Tool.name) := by
  induction ts using List.reverseRecOn with
  | nil => rfl
  | append_singleton ts t ih =>
    have hmapn : (ts ++ [t]).map Tool.name = ts.map Tool.name ++ [t.name] := by
      simp
    rw [registerAll_append, hmapn, firstOcc_append]
    show (dictInsert (registerAll ts).tools t.name t).map Prod.fst = _
    rw [dictInsert_keys, ih]
    have hiff : t.name ∈ firstOcc (ts.map Tool.name) ↔ t.name ∈ ts.map Tool.name :=
      mem_firstOcc _ _
    by_cases hmem : t.name ∈ ts.map Tool.name
    · rw [if_pos (hiff.mpr hmem), if_pos (by simpa using hmem)]
    · rw [if_neg (fun hc => hmem (hiff.mp hc)), if_neg (by simpa using hmem)]

lemma registerAll_keys_nodup (ts : List Tool) :
    (((registerAll ts).tools).map Prod.fst).Nodup := by
  rw [registerAll_keys]
  exact firstOcc_nodup _

lemma registerAll_mem (ts : List Tool) (p : String × Tool)
    (hp : p ∈ (registerAll ts).tools) : p.2 ∈ ts ∧ p.1 = p.2.name := by
  induction ts using List.reverseRecOn generalizing p with
  | nil => cases hp
  | append_singleton ts t ih =>
    rw [registerAll_append] at hp
    rcases dictInsert_mem _ _ _ _ hp with hmem | heq
    · obtain ⟨h1, h2⟩ := ih p hmem
      exact ⟨List.mem_append.mpr (Or.inl h1), h2⟩
    · subst heq
      exact ⟨List.mem_append.mpr (Or.inr (List.mem_singleton.mpr rfl)), rfl⟩

/-! ### Properties of the dispatch loop -/

lemma dispatchCalls_skip (m : ToolsManager) (msgs : List Message)
    (tc : ToolCall) (rest : List ToolCall) (e : PyExc)
    (hexec : execute_tool m tc.name tc.arguments = Except.error e)
    (hval : e.isValueError = true) :
    dispatchCalls m msgs (tc :: rest) = dispatchCalls m msgs rest := by
  simp [dispatchCalls, hexec, hval]

lemma dispatchCalls_ok (m : ToolsManager) (batch : List ToolCall)
    (h : ∀ tc ∈ batch, ∀ e,
      execute_tool m tc.name tc.arguments = Except.error e →
        e.isValueError = true) :
    ∀ msgs, dispatchCalls m msgs batch =
      Except.ok (msgs ++ batchResults m batch) := by
  induction batch with
  | nil => intro msgs; simp [dispatchCalls, batchResults]
  | cons tc rest ih =>
    intro msgs
    have hrest : ∀ tc' ∈ rest, ∀ e,
        execute_tool m tc'.name tc'.arguments = Except.error e →
          e.isValueError = true :=
      fun tc' h' => h tc' (List.mem_cons.mpr (Or.inr h'))
    cases hexec : execute_tool m tc.name tc.arguments with
    | ok r =>
      rw [show dispatchCalls m msgs (tc :: rest)
          = dispatchCalls m (msgs ++ [Message.tool tc.id tc.name r]) rest by
        simp [dispatchCalls, hexec]]
      rw [ih hrest]
      simp [batchResults, List.filterMap_cons, hexec]
    | error e =>
      have hval := h tc (List.mem_cons.mpr (Or.inl rfl)) e hexec
      rw [dispatchCalls_skip m msgs tc rest e hexec hval, ih hrest]
      simp [batchResults, List.filterMap_cons, hexec]

lemma batchResults_mem (m : ToolsManager) (batch : List ToolCall)
    (msg : Message) (hmsg : msg ∈ batchResults m batch) :
    ∃ tc ∈ batch, ∃ r, execute_tool m tc.name tc.arguments = Except.ok r ∧
      msg = Message.tool tc.id tc.name r := by
  unfold batchResults at hmsg
  rw [List.mem_filterMap] at hmsg
  obtain ⟨tc, htc, he⟩ := hmsg
  cases hexec : execute_tool m tc.name tc.arguments with
  | ok r =>
    refine ⟨tc, htc, r, hexec, ?_⟩
    rw [hexec] at he
    simpa using he.symm
  | error e =>
    rw [hexec] at he
    cases he

lemma batchResults_ids_sublist (m : ToolsManager) (batch : List ToolCall) :
    List.Sublist ((batchResults m batch).filterMap Message.toolCallId)
      (batch.map ToolCall.id) := by
  induction batch with
  | nil => simp [batchResults]
  | cons tc rest ih =>
    cases hexec : execute_tool m tc.name tc.arguments with
    | ok r =>
      simp only [batchResults, List.filterMap_cons, hexec, List.map_cons,
        Message.toolCallId]
      exact List.Sublist.cons₂ _ ih
    | error e =>
      simp only [batchResults, List.filterMap_cons, hexec, List.map_cons]
      exact List.Sublist.cons _ ih

lemma dispatchCalls_skip_all (m : ToolsManager) (batch : List ToolCall)
    (h : ∀ tc ∈ batch, ∃ e,
      execute_tool m tc.name tc.arguments = Except.error e ∧
        e.isValueError = true) :
    ∀ msgs, dispatchCalls m msgs batch = Except.ok msgs := by
  induction batch with
  | nil => intro msgs; rfl
  | cons tc rest ih =>
    intro msgs
    obtain ⟨e, hexec, hval⟩ := h tc (List.mem_cons.mpr (Or.inl rfl))
    rw [dispatchCalls_skip m msgs tc rest e hexec hval]
    exact ih (fun tc' h' => h tc' (List.mem_cons.mpr (Or.inr h'))) msgs

/-! ### Stepping the conversation loop -/

lemma loopBody_svc_error (svc : CompletionService) (m : ToolsManager)
    (fuel : Nat) (s : LoopState) (e : PyExc)
    (h : svc s.messages = Except.error e) :
    loopBody svc m (fuel + 1) s =
      BodyResult.exn e ⟨s.messages, s.serviceCalls + 1⟩ := by
  simp [loopBody, h]

lemma loopBody_ret (svc : CompletionService) (m : ToolsManager)
    (fuel : Nat) (s : LoopState) (rm : AssistantMessage)
    (h : svc s.messages = Except.ok rm) (hempty : rm.tool_calls = []) :
    loopBody svc m (fuel + 1) s =
      BodyResult.ret rm.content ⟨s.messages, s.serviceCalls + 1⟩ := by
  simp [loopBody, h, hempty]

lemma loopBody_step (svc : CompletionService) (m : ToolsManager)
    (fuel : Nat) (s : LoopState) (rm : AssistantMessage) (msgs2 : List Message)
    (h : svc s.messages = Except.ok rm) (hne : rm.tool_calls ≠ [])
    (hdispatch : dispatchCalls m (s.messages ++ [Message.assistant rm])
      rm.tool_calls = Except.ok msgs2) :
    loopBody svc m (fuel + 1) s =
      loopBody svc m fuel ⟨msgs2, s.serviceCalls + 1⟩ := by
  have hnonempty : rm.tool_calls.isEmpty = false := by
    cases hc : rm.tool_calls with
    | nil => exact absurd hc hne
    | cons a l => rfl
  simp [loopBody, h, hnonempty, hdispatch]

lemma loopBody_dispatch_exn (svc : CompletionService) (m : ToolsManager)
    (fuel : Nat) (s : LoopState) (rm : AssistantMessage) (e : PyExc)
    (msgs1 : List Message)
    (h : svc s.messages = Except.ok rm) (hne : rm.tool_calls ≠ [])
    (hdispatch : dispatchCalls m (s.messages ++ [Message.assistant rm])
      rm.tool_calls = Except.error (e, msgs1)) :
    loopBody svc m (fuel + 1) s =
      BodyResult.exn e ⟨msgs1, s.serviceCalls + 1⟩ := by
  have hnonempty : rm.tool_calls.isEmpty = false := by
    cases hc : rm.tool_calls with
    | nil => exact absurd hc hne
    | cons a l => rfl
  simp [loopBody, h, hnonempty, hdispatch]

lemma alwaysTool_out (n : Nat) : ∀ s : LoopState,
    ∃ s', loopBody alwaysToolSvc ToolsManager.empty n s =
        BodyResult.outOfFuel s' ∧
      s'.serviceCalls = s.serviceCalls + n := by
  induction n with
  | zero => intro s; exact ⟨s, rfl, rfl⟩
  | succ n ih =>
    intro s
    have hexec : execute_tool ToolsManager.empty "unknown_tool" "\x7b\x7d"
        = Except.error (PyExc.valueError "Unknown tool: unknown_tool") := rfl
    have hdispatch : dispatchCalls ToolsManager.empty
        (s.messages ++ [Message.assistant alwaysToolResponse])
        alwaysToolResponse.tool_calls
        = Except.ok (s.messages ++ [Message.assistant alwaysToolResponse]) :=
      dispatchCalls_skip_all _ _
        (by
          intro tc htc
          simp only [alwaysToolResponse, List.mem_singleton] at htc
          subst htc
          exact ⟨PyExc.valueError "Unknown tool: unknown_tool", rfl, rfl⟩) _
    have hstep := loopBody_step alwaysToolSvc ToolsManager.empty n s
      alwaysToolResponse _ rfl (by simp [alwaysToolResponse]) hdispatch
    obtain ⟨s', h1, h2⟩ :=
      ih ⟨s.messages ++ [Message.assistant alwaysToolResponse], s.serviceCalls + 1⟩
    refine ⟨s', hstep.trans h1, ?_⟩
    simp only [] at h2
    rw [h2]
    omega

lemma execute_tool_valueError_cases (m : ToolsManager) (name args : String)
    (h : dictLookup m.tools name = none ∨ jsonLoads args = none) :
    ∃ e, execute_tool m name args = Except.error e ∧
      e.isValueError = true := by
  rcases h with h | h
  · exact ⟨PyExc.valueError ("Unknown tool: " ++ name),
      by simp [execute_tool, h], rfl⟩
  · cases hl : dictLookup m.tools name with
    | none => exact ⟨PyExc.valueError ("Unknown tool: " ++ name),
        by simp [execute_tool, hl], rfl⟩
    | some t => exact ⟨PyExc.jsonDecodeError "Expecting value",
        by simp [execute_tool, hl, h], rfl⟩

/-! ### The claims -/

/-- C5.  For every registry state and every name not registered in it,
`execute_tool` fails with the unknown-tool `ValueError` carrying the
requested name — for every arguments payload, parsable or not, so the
lookup failure fires before any parse attempt and no other error type can
be produced. -/
theorem unregistered_name_unknown_tool_error (m : ToolsManager)
    (name arguments : String) (h : dictLookup m.tools name = none) :
    execute_tool m name arguments
      = Except.error (PyExc.valueError ("Unknown tool: " ++ name)) := by
  simp [execute_tool, h]

/-- Witness for C5: the unregistered name `translate` together with an
unparsable arguments payload still produces exactly the unknown-tool
`ValueError`, not a parse error. -/
theorem unregistered_name_unknown_tool_error_witness :
    jsonLoads ":::" = none
  ∧ execute_tool mgrSearch "translate" ":::"
      = Except.error (PyExc.valueError "Unknown tool: translate") :=
  ⟨rfl, unregistered_name_unknown_tool_error mgrSearch "translate" ":::" rfl⟩

/-- C9.  `execute_tool` performs no validation of the parsed arguments
against the descriptor's parameter schema: whenever the name is registered
and the payload parses, the result is exactly the implementation applied
to the parsed value — whatever the schema says and whatever fields the
payload lacks — so a schema violation surfaces as whatever the
implementation raises. -/
theorem execute_no_schema_validation (m : ToolsManager)
    (name arguments : String) (t : Tool) (v : PyVal)
    (hreg : dictLookup m.tools name = some t)
    (hparse : jsonLoads arguments = some v) :
    execute_tool m name arguments = t.implementation v := by
  simp [execute_tool, hreg, hparse]

/-- Witness for C9: the JSON-parsable payload `\x7b\x7d` lacks the required
`query` field of `search_internet`'s schema, yet it is passed straight to
the implementation, whose `params["query"]` lookup raises `KeyError` —
not a `MalformedArgumentsError`. -/
theorem execute_no_schema_validation_witness :
    execute_tool mgrSearch "search_internet" "\x7b\x7d"
      = Except.error (PyExc.keyError "query") :=
  (execute_no_schema_validation mgrSearch "search_internet" "\x7b\x7d"
    searchTool (PyVal.dict []) rfl rfl).trans rfl

/-- C8.  Registering two descriptors under the same name, over any
reachable registry state, leaves exactly one entry for that name — the
later-registered descriptor — raising no duplicate-detection error, and
the lookup of every other name is unaffected. -/
theorem register_same_name_overwrites (ts : List Tool) (t1 t2 : Tool)
    (h : t1.name = t2.name) :
    dictLookup (register_tool (register_tool (registerAll ts) t1) t2).tools
        t2.name = some t2
  ∧ ((register_tool (register_tool (registerAll ts) t1) t2).tools.filter
      (fun p => p.1 = t2.name)).length = 1
  ∧ ∀ n, n ≠ t2.name →
      dictLookup (register_tool (register_tool (registerAll ts) t1) t2).tools n
        = dictLookup (registerAll ts).tools n := by
  unfold register_tool
  refine ⟨dictLookup_dictInsert_self _ _ _, ?_, ?_⟩
  · rw [dictInsert_filter_self _ _ _
      (by
        rw [h]
        exact dictInsert_keys_nodup _ _ _ (registerAll_keys_nodup ts))]
    rfl
  · intro n hn
    rw [dictLookup_dictInsert_ne _ _ _ _ hn,
      dictLookup_dictInsert_ne _ _ _ _ (fun hc => hn (hc.trans h))]

/-- Witness for C8: registering `toolDupA` then `toolDupB`, both named
`dup`, into the empty registry leaves `toolDupB` stored under `dup`. -/
theorem register_same_name_overwrites_witness :
    dictLookup
        (register_tool (register_tool (registerAll []) toolDupA) toolDupB).tools
        "dup" = some toolDupB :=
  (register_same_name_overwrites [] toolDupA toolDupB rfl).1

/-- C7.  For every registration sequence, `get_tool_definitions` returns
one entry per distinct registered name, in the order the names were first
registered, and each entry is the `"function"`-tagged formatting of a
registered descriptor's name, description and parameter schema. -/
theorem list_descriptors_registration_order (ts : List Tool) :
    (get_tool_definitions (registerAll ts)).map ToolDefinition.name
      = firstOcc (ts.map Tool.name)
  ∧ ((get_tool_definitions (registerAll ts)).map ToolDefinition.name).Nodup
  ∧ ∀ d ∈ get_tool_definitions (registerAll ts), ∃ t ∈ ts,
      d = ⟨"function", t.name, t.description, t.parameters⟩ := by
  have h1 : (get_tool_definitions (registerAll ts)).map ToolDefinition.name
      = ((registerAll ts).tools).map Prod.fst := by
    unfold get_tool_definitions
    rw [List.map_map]
    apply List.map_congr_left
    intro p hp
    exact ((registerAll_mem ts p hp).2).symm
  refine ⟨h1.trans (registerAll_keys ts), ?_, ?_⟩
  · rw [h1]
    exact registerAll_keys_nodup ts
  · intro d hd
    unfold get_tool_definitions at hd
    rw [List.mem_map] at hd
    obtain ⟨p, hp, he⟩ := hd
    exact ⟨p.2, (registerAll_mem ts p hp).1, he.symm⟩

/-- C3.  A tool call whose name is unregistered or whose serialized
arguments do not parse makes `execute_tool` raise a `ValueError`-family
error; the dispatch loop catches it, appends no tool-result message for
that call, continues with the remaining calls, and — when the whole batch
is of this kind — the loop proceeds to the next completion-service call
instead of aborting. -/
theorem unknown_or_malformed_call_skipped (m : ToolsManager)
    (msgs : List Message) (tc : ToolCall) (rest : List ToolCall)
    (h : dictLookup m.tools tc.name = none ∨ jsonLoads tc.arguments = none) :
    (∃ e, execute_tool m tc.name tc.arguments = Except.error e ∧
        e.isValueError = true)
  ∧ dispatchCalls m msgs (tc :: rest) = dispatchCalls m msgs rest
  ∧ ∀ svc : CompletionService, ∀ fuel s rm,
      svc s.messages = Except.ok rm → rm.tool_calls ≠ [] →
      (∀ tc' ∈ rm.tool_calls,
        dictLookup m.tools tc'.name = none ∨ jsonLoads tc'.arguments = none) →
      loopBody svc m (fuel + 1) s
        = loopBody svc m fuel
            ⟨s.messages ++ [Message.assistant rm], s.serviceCalls + 1⟩ := by
  obtain ⟨e, hexec, hval⟩ := execute_tool_valueError_cases m tc.name tc.arguments h
  refine ⟨⟨e, hexec, hval⟩, dispatchCalls_skip m msgs tc rest e hexec hval, ?_⟩
  intro svc fuel s rm hsvc hne hall
  exact loopBody_step svc m fuel s rm _ hsvc hne
    (dispatchCalls_skip_all m rm.tool_calls
      (fun tc' htc' =>
        execute_tool_valueError_cases m tc'.name tc'.arguments (hall tc' htc')) _)

/-- Witness for C3: a call of the unregistered tool `translate` is skipped,
leaving the dispatch of the rest of the batch unchanged. -/
theorem unknown_or_malformed_call_skipped_witness :
    dispatchCalls mgrSearch [] [⟨"call_1", "translate", "\x7b\x7d"⟩]
      = dispatchCalls mgrSearch [] [] :=
  (unknown_or_malformed_call_skipped mgrSearch []
    ⟨"call_1", "translate", "\x7b\x7d"⟩ [] (Or.inl rfl)).2.1

/-- C4.  In a batch whose failures are all of the absorbed
`ValueError` family, dispatch appends exactly one tool-result message per
successfully executed call, in batch order, each carrying the id and the
name of its own originating request — nothing fabricated or cross-wired;
distinct request ids yield distinct result ids; and at the loop level the
results land immediately after the assistant turn that issued the
requests. -/
theorem tool_result_correlation (m : ToolsManager) (batch : List ToolCall)
    (msgs : List Message)
    (h : ∀ tc ∈ batch, ∀ e,
      execute_tool m tc.name tc.arguments = Except.error e →
        e.isValueError = true) :
    dispatchCalls m msgs batch = Except.ok (msgs ++ batchResults m batch)
  ∧ (∀ msg ∈ batchResults m batch, ∃ tc ∈ batch, ∃ r,
      execute_tool m tc.name tc.arguments = Except.ok r ∧
        msg = Message.tool tc.id tc.name r)
  ∧ ((batch.map ToolCall.id).Nodup →
      ((batchResults m batch).filterMap Message.toolCallId).Nodup)
  ∧ ∀ svc : CompletionService, ∀ fuel s rm,
      svc s.messages = Except.ok rm → rm.tool_calls = batch → batch ≠ [] →
      loopBody svc m (fuel + 1) s
        = loopBody svc m fuel
            ⟨s.messages ++ [Message.assistant rm] ++ batchResults m batch,
             s.serviceCalls + 1⟩ := by
  refine ⟨dispatchCalls_ok m batch h msgs,
    fun msg hmsg => batchResults_mem m batch msg hmsg,
    fun hids => List.Nodup.sublist (batchResults_ids_sublist m batch) hids,
    ?_⟩
  intro svc fuel s rm hsvc hcalls hne
  refine loopBody_step svc m fuel s rm _ hsvc (by rw [hcalls]; exact hne) ?_
  rw [hcalls]
  exact dispatchCalls_ok m batch h _

/-- Witness for C4: a batch of one well-formed `search_internet` call
produces exactly its own correlated tool-result. -/
theorem tool_result_correlation_witness :
    dispatchCalls mgrSearch [] batchOne
      = Except.ok ([] ++ batchResults mgrSearch batchOne) :=
  (tool_result_correlation mgrSearch batchOne []
    (by
      intro tc htc e hexec
      rw [show batchOne
          = [⟨"call_9", "search_internet", "\x7b\"query\":\"x\"\x7d"⟩]
        from rfl, List.mem_singleton] at htc
      subst htc
      have hok : execute_tool mgrSearch "search_internet"
          "\x7b\"query\":\"x\"\x7d" = Except.ok "result-x" := rfl
      exact Except.noConfusion (hok.symm.trans hexec))).1

/-- C2 counterexample.  The claim that every failure raised inside a
registered tool's implementation is absorbed inside the dispatch phase is
false: `search_internet` invoked with the parsable payload `\x7b\x7d`
raises `KeyError`, which the per-call `except ValueError` handler does not
catch; the exception escapes the dispatch loop, the whole run fails after
a single completion-service call (the service would have answered
`"Final"` on the next call), and the caller gets `None`. -/
theorem tool_exception_escapes_loop :
    execute_tool mgrSearch "search_internet" "\x7b\x7d"
      = Except.error (PyExc.keyError "query")
  ∧ (PyExc.keyError "query").isValueError = false
  ∧ loopBody svcBoom mgrSearch 5 ⟨initMessages "sys" "tweet", 0⟩
      = BodyResult.exn (PyExc.keyError "query")
          ⟨initMessages "sys" "tweet" ++ [Message.assistant rmBoom], 1⟩
  ∧ process svcBoom mgrSearch "sys" "tweet" 5 = some none :=
  ⟨rfl, rfl, rfl, rfl⟩

/-- C2 as amended.  The absorption boundary is the Python exception class,
not the tool level: an implementation failure raised as a `ValueError`
(or its subclass `json.JSONDecodeError`) is absorbed by the per-call
handler and dispatch continues; any other exception escapes the dispatch
of the batch — and, when it is the batch's first call, fails the whole
loop run. -/
theorem tool_error_absorption_boundary (m : ToolsManager)
    (msgs : List Message) (tc : ToolCall) (rest : List ToolCall) (e : PyExc)
    (hexec : execute_tool m tc.name tc.arguments = Except.error e) :
    (e.isValueError = true →
      dispatchCalls m msgs (tc :: rest) = dispatchCalls m msgs rest)
  ∧ (e.isValueError = false →
      dispatchCalls m msgs (tc :: rest) = Except.error (e, msgs))
  ∧ (e.isValueError = false → ∀ svc : CompletionService, ∀ fuel s rm,
      svc s.messages = Except.ok rm → rm.tool_calls = tc :: rest →
      loopBody svc m (fuel + 1) s
        = BodyResult.exn e
            ⟨s.messages ++ [Message.assistant rm], s.serviceCalls + 1⟩) := by
  refine ⟨fun hval => dispatchCalls_skip m msgs tc rest e hexec hval,
    fun hval => by simp [dispatchCalls, hexec, hval],
    ?_⟩
  intro hval svc fuel s rm hsvc hcalls
  refine loopBody_dispatch_exn svc m fuel s rm e _ hsvc
    (by rw [hcalls]; exact List.cons_ne_nil tc rest) ?_
  rw [hcalls]
  simp [dispatchCalls, hexec, hval]

/-- Witness for C2's amended theorem: the `KeyError` raised by
`search_internet` on the payload `\x7b\x7d` makes the dispatch of the batch
fail instead of being absorbed. -/
theorem tool_error_absorption_boundary_witness :
    dispatchCalls mgrSearch [] [⟨"call_1", "search_internet", "\x7b\x7d"⟩]
      = Except.error (PyExc.keyError "query", []) :=
  (tool_error_absorption_boundary mgrSearch []
    ⟨"call_1", "search_internet", "\x7b\x7d"⟩ [] (PyExc.keyError "query")
    rfl).2.1 rfl

/-- C1 counterexample.  On a completion-service failure the caller does
not receive a `CompletionServiceError` or any error value: the failing run
returns the bare `None`, the very value a successful run whose final
assistant turn has null content also returns, so the surfaced result
carries no error at all. -/
theorem failure_value_indistinguishable :
    loopBody svcFail mgrSearch 3 ⟨initMessages "sys" "tweet", 0⟩
      = BodyResult.exn (PyExc.otherError "connection error")
          ⟨initMessages "sys" "tweet", 1⟩
  ∧ loopBody svcNull mgrSearch 3 ⟨initMessages "sys" "tweet", 0⟩
      = BodyResult.ret none ⟨initMessages "sys" "tweet", 1⟩
  ∧ process svcFail mgrSearch "sys" "tweet" 3
      = process svcNull mgrSearch "sys" "tweet" 3
  ∧ process svcFail mgrSearch "sys" "tweet" 3 = some none :=
  ⟨rfl, rfl, rfl, rfl⟩

/-- C1 as amended.  When the completion-service call raises, the loop
terminates at once in the failed outcome: the failing call is the last
completion-service call of the run (exactly one more call, however much
fuel remains — no internal retry), and the caller receives the plain
value `None`, not an error object. -/
theorem completion_failure_fails_without_retry (svc : CompletionService)
    (m : ToolsManager) (s : LoopState) (e : PyExc) (fuel : Nat)
    (h : svc s.messages = Except.error e) :
    loopBody svc m (fuel + 1) s
      = BodyResult.exn e ⟨s.messages, s.serviceCalls + 1⟩
  ∧ ∀ p u, s.messages = initMessages p u → s.serviceCalls = 0 →
      process svc m p u (fuel + 1) = some none := by
  refine ⟨loopBody_svc_error svc m fuel s e h, ?_⟩
  intro p u hm hc
  unfold process
  have hs : (⟨initMessages p u, 0⟩ : LoopState) = s := by
    cases s
    simp only [] at hm hc
    rw [hm, hc]
  rw [hs, loopBody_svc_error svc m fuel s e h]

/-- Witness for C1's amended theorem: a transport error on the very first
completion-service call ends the run immediately with one recorded call. -/
theorem completion_failure_fails_without_retry_witness :
    loopBody svcFail mgrSearch 1 ⟨initMessages "sys" "tweet", 0⟩
      = BodyResult.exn (PyExc.otherError "connection error")
          ⟨initMessages "sys" "tweet", 1⟩ :=
  (completion_failure_fails_without_retry svcFail mgrSearch
    ⟨initMessages "sys" "tweet", 0⟩ (PyExc.otherError "connection error")
    0 rfl).1

/-- C6.  The loop imposes no iteration cap: against a completion service
whose every answer requests a tool call, the run is still in flight after
every fuel bound `n`, having made exactly `n` completion-service calls —
so no bound `N` stops the loop after `N` calls, and the embedded loop
function is total only thanks to the added fuel parameter. -/
theorem no_iteration_cap (p u : String) (n : Nat) :
    ∃ s, loopBody alwaysToolSvc ToolsManager.empty n ⟨initMessages p u, 0⟩
        = BodyResult.outOfFuel s
      ∧ s.serviceCalls = n := by
  obtain ⟨s', h1, h2⟩ := alwaysTool_out n ⟨initMessages p u, 0⟩
  exact ⟨s', h1, by simpa using h2⟩

/-- C10.  `process` never propagates an exception: every run in which the
loop body escapes with an exception — whatever the exception — returns the
plain value `None`, and every normally returning run yields the final
assistant content unchanged; the caller receives no error object and
cannot tell failure kinds apart. -/
theorem process_returns_text_or_none (svc : CompletionService)
    (m : ToolsManager) (p u : String) (fuel : Nat) :
    (∀ e s, loopBody svc m fuel ⟨initMessages p u, 0⟩ = BodyResult.exn e s →
      process svc m p u fuel = some none)
  ∧ (∀ c s, loopBody svc m fuel ⟨initMessages p u, 0⟩ = BodyResult.ret c s →
      process svc m p u fuel = some c) := by
  constructor
  · intro e s h
    unfold process
    rw [h]
  · intro c s h
    unfold process
    rw [h]

/-- Witness for C10: the transport-failure run surfaces as the return
value `None`. -/
theorem process_returns_text_or_none_witness :
    process svcFail mgrSearch "sys" "tweet" 1 = some none :=
  (process_returns_text_or_none svcFail mgrSearch "sys" "tweet" 1).1
    (PyExc.otherError "connection error") ⟨initMessages "sys" "tweet", 1⟩ rfl

end ReplyGuy
